import Mathlib

/-!
Shallow embedding of the client-side data layer of the project-management
application (src/src/context/DataContext.tsx) and verification of the
frozen claims about it.

Conventions of the embedding:
* Each React state collection (`projects`, `stages`, `files`, `brochurePages`,
  `commentTasks`, `downloadHistory`, ...) is a `List` of plain records.
* Asynchronous remote calls are modelled by explicit parameters: the remote
  table contents fetched by a query, a `Bool` telling whether a write
  succeeded, and so on.  Locally generated UUIDs and `Date` timestamps are
  passed in as parameters (`freshId`, `now`), since their values are
  irrelevant to the properties at stake.
* JavaScript `Array.prototype.sort` with the comparator
  `(a, b) => a.page_number - b.page_number` is a stable sort by
  `page_number`; it is modelled by Mathlib's stable `List.insertionSort`.
* Functions that only read state (`getBrochurePages`) are modelled as pure
  functions of the state they read.
-/

namespace DataCtx

/-- A signed-in user, as provided by the auth context (`profiles` row).
The `role` is one of the strings "manager", "employee", "client". -/
structure User where
  id : String
  name : String
  email : String
  role : String
deriving DecidableEq, Repr

/-- A row of the remote `projects` table together with the joined client
profile name (`client:profiles!projects_client_id_fkey(full_name)`).
Nullable columns are `Option`s. -/
structure ProjectRow where
  id : String
  title : String
  description : Option String
  client_id : String
  client_full_name : Option String
  deadline : String
  progress_percentage : Nat
  assigned_employees : Option (List String)
  created_at : String
  status : String
  priority : String
deriving DecidableEq, Repr

/-- In-memory `Project` record of the data context. -/
structure Project where
  id : String
  title : String
  description : String
  client_id : String
  client_name : String
  deadline : String
  progress_percentage : Nat
  assigned_employees : List String
  created_at : String
  status : String
  priority : String
deriving DecidableEq, Repr

/-- The row-to-record mapping performed inside `loadProjects`
(`data.map((p) => ({...}))`): missing description becomes `""`, a missing
joined profile name becomes "Unknown Client", missing assignment array
becomes `[]`. -/
def mapProjectRow (p : ProjectRow) : Project :=
  { id := p.id
    title := p.title
    description := p.description.getD ""
    client_id := p.client_id
    client_name := p.client_full_name.getD "Unknown Client"
    deadline := p.deadline
    progress_percentage := p.progress_percentage
    assigned_employees := p.assigned_employees.getD []
    created_at := p.created_at
    status := p.status
    priority := p.priority }

/-- `loadProjects`: when the remote client is configured (`supabase` non
null) it selects all rows of `projects` (no role-based filter in the
query) and replaces the whole collection with the mapped rows; when the
fetch errors it falls back to the mock data; when the client is not
configured it returns early, leaving the previous collection.
`fetched = some rows` models a successful fetch, `none` a fetch error. -/
def loadProjects (configured : Bool) (fetched : Option (List ProjectRow))
    (prev mock : List Project) : List Project :=
  if configured then
    match fetched with
    | some rows => rows.map mapProjectRow
    | none => mock
  else prev

/-- `fetchAccessibleProjectIds`: returns `null` (here `none`) when the
remote client is not configured or no user is signed in; otherwise it
queries project ids filtered by role — `eq('client_id', user.id)` for a
client, `contains('assigned_employees', [user.id])` for an employee, and
unfiltered for a manager.  Every error path returns `[]`;
`fetchOk = false` models a failing query. -/
def fetchAccessibleProjectIds (configured : Bool) (user : Option User)
    (fetchOk : Bool) (remote : List ProjectRow) : Option (List String) :=
  if configured then
    match user with
    | none => none
    | some u =>
      if !fetchOk then some []
      else if u.role = "client" then
        some ((remote.filter (fun p => p.client_id = u.id)).map (fun p => p.id))
      else if u.role = "employee" then
        some ((remote.filter (fun p => p.assigned_employees.getD [] |>.contains u.id)).map (fun p => p.id))
      else
        some (remote.map (fun p => p.id))
  else none

/-- In-memory `Stage` record.  The nested `files` and `comments` arrays are
represented by the ids of their elements. -/
structure Stage where
  id : String
  project_id : String
  name : String
  notes : String
  progress_percentage : Nat
  approval_status : String
  files : List String
  comments : List String
  order : Nat
deriving DecidableEq, Repr

/-- One stage pushed by the auto-creation effect for a given project and
stage name at position `i` of `STAGE_NAMES`: empty notes, zero progress,
pending approval, `order: index`. -/
def mkAutoStage (freshId : String) (projectId stageName : String) (i : Nat) : Stage :=
  { id := freshId
    project_id := projectId
    name := stageName
    notes := ""
    progress_percentage := 0
    approval_status := "pending"
    files := []
    comments := []
    order := i }

/-- The inner `STAGE_NAMES.forEach((stageName, index) => newStages.push(...))`
loop, mirrored as index-carrying recursion over the (abstract) canonical
stage-name list. -/
def stageBlock (fresh : Nat → String) (projectId : String) :
    List String → Nat → List Stage
  | [], _ => []
  | stageName :: rest, i =>
      mkAutoStage (fresh i) projectId stageName i :: stageBlock fresh projectId rest (i + 1)

/-- The stage auto-creation `useEffect` body: collect the project ids that
already have a stage, take the projects not among them, build the canonical
stage block for each, and append all the new stages to the existing
collection.  `fresh p i` stands for the `uuidv4()` generated for project
`p`'s stage number `i`. -/
def autoCreateStages (stageNames : List String) (fresh : String → Nat → String)
    (projects : List Project) (stages : List Stage) : List Stage :=
  let existingProjectIds := stages.map (fun s => s.project_id)
  let newProjects := projects.filter (fun p => !existingProjectIds.contains p.id)
  stages ++ newProjects.flatMap (fun p => stageBlock (fresh p.id) p.id stageNames 0)

/-- In-memory `File` metadata record.  Fields that some creation paths
leave `undefined` are `Option`s. -/
structure File where
  id : String
  stage_id : Option String
  project_id : String
  filename : String
  file_url : String
  storage_path : Option String
  uploaded_by : String
  uploader_name : String
  timestamp : String
  size : Nat
  file_type : String
  category : String
  description : Option String
  download_count : Nat
  last_downloaded : Option String
  last_downloaded_by : Option String
  is_archived : Bool
  tags : Option (List String)
deriving DecidableEq, Repr

/-- A `Partial<File>` update object: every field optional; `none` models an
absent property, which the object spread `{ ...f, ...metadata }` leaves
unchanged. -/
structure FileUpdate where
  id : Option String := none
  stage_id : Option (Option String) := none
  project_id : Option String := none
  filename : Option String := none
  file_url : Option String := none
  storage_path : Option (Option String) := none
  uploaded_by : Option String := none
  uploader_name : Option String := none
  timestamp : Option String := none
  size : Option Nat := none
  file_type : Option String := none
  category : Option String := none
  description : Option (Option String) := none
  download_count : Option Nat := none
  last_downloaded : Option (Option String) := none
  last_downloaded_by : Option (Option String) := none
  is_archived : Option Bool := none
  tags : Option (Option (List String)) := none
deriving DecidableEq, Repr

/-- The object spread `{ ...f, ...metadata }`: present properties of the
update replace those of the record. -/
def applyFileUpdate (f : File) (m : FileUpdate) : File :=
  { id := m.id.getD f.id
    stage_id := m.stage_id.getD f.stage_id
    project_id := m.project_id.getD f.project_id
    filename := m.filename.getD f.filename
    file_url := m.file_url.getD f.file_url
    storage_path := m.storage_path.getD f.storage_path
    uploaded_by := m.uploaded_by.getD f.uploaded_by
    uploader_name := m.uploader_name.getD f.uploader_name
    timestamp := m.timestamp.getD f.timestamp
    size := m.size.getD f.size
    file_type := m.file_type.getD f.file_type
    category := m.category.getD f.category
    description := m.description.getD f.description
    download_count := m.download_count.getD f.download_count
    last_downloaded := m.last_downloaded.getD f.last_downloaded
    last_downloaded_by := m.last_downloaded_by.getD f.last_downloaded_by
    is_archived := m.is_archived.getD f.is_archived
    tags := m.tags.getD f.tags }

/-- `updateFileMetadata`: maps the collection, spreading the partial update
over the file whose id matches. -/
def updateFileMetadata (fileId : String) (metadata : FileUpdate)
    (files : List File) : List File :=
  files.map (fun f => if f.id = fileId then applyFileUpdate f metadata else f)

/-- An entry of the `downloadHistory` collection. -/
structure DownloadHistory where
  id : String
  file_id : String
  downloaded_by : String
  downloader_name : String
  download_date : String
  file_name : String
  file_size : Nat
deriving DecidableEq, Repr

/-- `downloadFile`: finds the file; returns unchanged state when the file
is absent or no user is signed in (`if (!file || !user) return`).
Otherwise maps the collection, incrementing `download_count` and stamping
`last_downloaded` and `last_downloaded_by` on the file with the matching
id, and appends a history entry.  The signed-URL fetch and the anchor
click do not touch the collections and are not modelled. -/
def downloadFile (user : Option User) (now : String) (histId : String)
    (fileId : String) (files : List File) (history : List DownloadHistory) :
    List File × List DownloadHistory :=
  match files.find? (fun f => f.id = fileId), user with
  | some file, some u =>
      (files.map (fun f =>
        if f.id = fileId then
          { f with download_count := f.download_count + 1
                   last_downloaded := some now
                   last_downloaded_by := some u.id }
        else f),
       history ++ [{ id := histId
                     file_id := fileId
                     downloaded_by := u.id
                     downloader_name := u.name
                     download_date := now
                     file_name := file.filename
                     file_size := file.size }])
  | _, _ => (files, history)

/-- `uploadFile`: builds the new record from the caller-supplied data with
a fresh id and timestamp and appends it; the remote insert result is
ignored (`remoteOk` has no effect on local state). -/
def uploadFile (fileData : File) (freshId : String) (now : String)
    (remoteOk : Bool) (files : List File) : List File :=
  files ++ [{ fileData with id := freshId, timestamp := now }]

/-- `deleteFile`: both branches remove the entry with the given id from
the collection (`prev.filter(f => f.id !== fileId)`); remote/storage
failures throw before the local removal, leaving the collection as is,
which coincides with the filter when the id is absent. -/
def deleteFile (fileId : String) (files : List File) : List File :=
  files.filter (fun f => ¬f.id = fileId)

/-- `saveProjectFiles`: both branches append the batch built for the file
list — the rows returned by the remote insert in the configured branch,
locally constructed entries otherwise — to the collection. -/
def saveProjectFiles (batch : List File) (files : List File) : List File :=
  files ++ batch

/-- The file extension computed by
`file.name.split('.').pop()?.toLowerCase() || 'unknown'`. -/
def fileExtOf (fileName : String) : String :=
  let t := (((fileName.splitOn ".").getLast?).getD "").toLower
  if t = "" then "unknown" else t

/-- The optimistic entry `uploadFileFromInput` appends before contacting
storage. -/
def optimisticFile (stages : List Stage) (user : Option User)
    (stageId fileName : String) (fileSize : Nat) (blobUrl uploaderName : String)
    (tempId now : String) : File :=
  { id := tempId
    stage_id := some stageId
    project_id := ((stages.find? (fun s => s.id = stageId)).map (fun s => s.project_id)).getD ""
    filename := fileName
    file_url := blobUrl
    storage_path := none
    uploaded_by := ((user.map (fun u => u.id)).getD "")
    uploader_name := uploaderName
    timestamp := now
    size := fileSize
    file_type := fileExtOf fileName
    category := "other"
    description := some ""
    download_count := 0
    last_downloaded := none
    last_downloaded_by := none
    is_archived := false
    tags := some [] }

/-- `uploadFileFromInput`: appends the optimistic entry, returns early when
the remote store is not configured; otherwise uploads to storage
(`uploadOk`), and on success replaces the optimistic entry by a saved entry
with a fresh id and the storage path, while on failure removes the
optimistic entry and re-throws (`Except.error` carries the state after the
rollback). -/
def uploadFileFromInput (configured : Bool) (stages : List Stage)
    (user : Option User) (stageId fileName : String) (fileSize : Nat)
    (blobUrl uploaderName tempId savedId now storagePath : String)
    (uploadOk : Bool) (files : List File) : Except (List File) (List File) :=
  let optimistic := optimisticFile stages user stageId fileName fileSize blobUrl uploaderName tempId now
  let files1 := files ++ [optimistic]
  if configured then
    if uploadOk then
      let saved := { optimistic with id := savedId, storage_path := some storagePath }
      .ok (files1.map (fun f => if f.id = tempId then saved else f))
    else
      .error (files1.filter (fun f => ¬f.id = tempId))
  else .ok files1

/-- In-memory `CommentTask` record. -/
structure CommentTask where
  id : String
  stage_id : String
  project_id : String
  text : String
  added_by : String
  author_name : String
  author_role : String
  status : String
  assigned_to : Option String
  deadline : Option String
  timestamp : String
deriving DecidableEq, Repr

/-- `addCommentTask`: builds the record from the caller's data with a
fresh local id and timestamp, appends it to the collection, then issues
the remote insert whose outcome the source ignores (no error handling, no
rollback) — modelled by the unused `remoteOk` parameter. -/
def addCommentTask (data : CommentTask) (freshId : String) (now : String)
    (remoteOk : Bool) (tasks : List CommentTask) : List CommentTask :=
  tasks ++ [{ data with id := freshId, timestamp := now }]

/-- In-memory `BrochurePage` record; `content` abstracts the JSON blob. -/
structure BrochurePage where
  id : String
  project_id : String
  page_number : Nat
  approval_status : String
  is_locked : Bool
  locked_by : Option String
  locked_by_name : Option String
  locked_at : Option String
  content : String
  created_at : String
  updated_at : String
deriving DecidableEq, Repr

/-- `lockBrochurePage`: returns unchanged when no user is signed in
(`if (!user) return`); otherwise sets the lock fields of the page with the
matching id to the calling user — both the remote branch
(`update({...}).eq('id', pageId)` followed by a reload) and the local
branch perform this same unconditional per-row update, with no read of the
current lock state. -/
def lockBrochurePage (user : Option User) (now : String) (pageId : String)
    (pages : List BrochurePage) : List BrochurePage :=
  match user with
  | none => pages
  | some u =>
      pages.map (fun page =>
        if page.id = pageId then
          { page with is_locked := true
                      locked_by := some u.id
                      locked_by_name := some u.name
                      locked_at := some now
                      updated_at := now }
        else page)

/-- `unlockBrochurePage`: clears the lock fields of the page with the
matching id; the source consults no user at all, so the model takes none. -/
def unlockBrochurePage (now : String) (pageId : String)
    (pages : List BrochurePage) : List BrochurePage :=
  pages.map (fun page =>
    if page.id = pageId then
      { page with is_locked := false
                  locked_by := none
                  locked_by_name := none
                  locked_at := none
                  updated_at := now }
    else page)

/-- The comparator `(a, b) => a.page_number - b.page_number` as an order
relation on pages. -/
def pageLe (a b : BrochurePage) : Prop := a.page_number ≤ b.page_number

instance : DecidableRel pageLe := fun a b => Nat.decLe a.page_number b.page_number

instance : IsTotal BrochurePage pageLe := ⟨fun a b => Nat.le_total a.page_number b.page_number⟩

instance : IsTrans BrochurePage pageLe := ⟨fun _ _ _ h h' => Nat.le_trans h h'⟩

/-- `getBrochurePages`: filter the collection by project id and stable-sort
ascending by page number; the source reads `brochurePages` and calls no
state setter, so the function is pure. -/
def getBrochurePages (projectId : String) (pages : List BrochurePage) :
    List BrochurePage :=
  List.insertionSort pageLe (pages.filter (fun page => page.project_id = projectId))

/-- The renumbering `for` loop of `deleteBrochurePage`: for the `i`-th
remaining page (sorted by page number) the new number is `pageNumber + i`;
when it differs from the page's (pre-state) number, the collection entry
with that page's id is updated. -/
def renumberLoop (pageNumber : Nat) : Nat → List BrochurePage →
    List BrochurePage → List BrochurePage
  | _, [], acc => acc
  | i, page :: rest, acc =>
      renumberLoop pageNumber (i + 1) rest
        (if page.page_number ≠ pageNumber + i then
          acc.map (fun p =>
            if p.id = page.id then { p with page_number := pageNumber + i } else p)
        else acc)

/-- `deleteBrochurePage` (remote writes succeeding): remove the pages of
the project with the given number, then take the project's pages with a
greater number from the pre-call state, sorted ascending, and renumber the
`i`-th to `pageNumber + i`.  The unconfigured branch only filters. -/
def deleteBrochurePage (configured : Bool) (projectId : String)
    (pageNumber : Nat) (pages : List BrochurePage) : List BrochurePage :=
  if configured then
    let afterDelete := pages.filter (fun p => ¬(p.project_id = projectId ∧ p.page_number = pageNumber))
    let remainingPages := List.insertionSort pageLe
      (pages.filter (fun p => p.project_id = projectId ∧ pageNumber < p.page_number))
    renumberLoop pageNumber 0 remainingPages afterDelete
  else
    pages.filter (fun p => ¬(p.project_id = projectId ∧ p.page_number = pageNumber))

/-- Per-id monotonicity of download counters across one operation: any
surviving file keeps a `download_count` at least the one it had, matching
files by id. -/
def countsMono (old new : List File) : Prop :=
  ∀ f ∈ old, ∀ f' ∈ new, f'.id = f.id → f.download_count ≤ f'.download_count

/-- The files collection an `uploadFileFromInput` call leaves behind,
whether it returned or threw. -/
def exceptState (e : Except (List File) (List File)) : List File :=
  match e with
  | .ok s => s
  | .error s => s

/-! Concrete records used by the counterexamples and witnesses below. -/

/-- The client user of the C1 counterexample and witness. -/
def c1User : User := { id := "u1", name := "Priya", email := "p@x.io", role := "client" }

/-- A remote project row owned by a different client (`u2`). -/
def c1OtherRow : ProjectRow :=
  { id := "p9", title := "Other", description := none, client_id := "u2"
    client_full_name := none, deadline := "2025-03-15", progress_percentage := 0
    assigned_employees := none, created_at := "2025-01-01", status := "active"
    priority := "high" }

/-- A remote row owned by the client of the C1 witness. -/
def c1OwnRow : ProjectRow :=
  { id := "p1", title := "Own", description := none, client_id := "u1"
    client_full_name := some "Priya", deadline := "2025-03-15"
    progress_percentage := 10, assigned_employees := some ["e1"]
    created_at := "2025-01-01", status := "active", priority := "high" }

/-- Canonical stage names used by the C2 witness. -/
def c2Names : List String := ["Planning", "Design"]

/-- Deterministic stand-in for the per-stage `uuidv4()` in the C2 witness. -/
def c2Fresh (pid : String) (i : Nat) : String := pid ++ "-s" ++ toString i

/-- A second uuid supply for the second run in the C2 witness. -/
def c2Fresh2 (pid : String) (i : Nat) : String := pid ++ "-t" ++ toString i

/-- The stage-less project of the C2 witness. -/
def c2Proj : Project :=
  { id := "1", title := "Website", description := "", client_id := "u1"
    client_name := "Priya", deadline := "2025-03-15", progress_percentage := 0
    assigned_employees := [], created_at := "2025-01-01", status := "active"
    priority := "high" }

/-- The holder of the lock in the C3 witness. -/
def c3Holder : User := { id := "u1", name := "Asha", email := "a@x.io", role := "employee" }

/-- Second user issuing the competing lock call in the C3 witness. -/
def c3Caller : User := { id := "u2", name := "Ravi", email := "r@x.io", role := "employee" }

/-- The already-locked page used in the C3 and C4 witnesses. -/
def c3Page : BrochurePage :=
  { id := "pg1", project_id := "bp1", page_number := 1, approval_status := "pending"
    is_locked := true, locked_by := some "u1", locked_by_name := some "Asha"
    locked_at := some "t0", content := "{}", created_at := "t0", updated_at := "t0" }

/-- A page of a different id, untouched by the C4 witness unlock call. -/
def c4Other : BrochurePage :=
  { id := "pg2", project_id := "bp1", page_number := 2, approval_status := "pending"
    is_locked := true, locked_by := some "u1", locked_by_name := some "Asha"
    locked_at := some "t0", content := "{}", created_at := "t0", updated_at := "t0" }

/-- A pre-existing file, untouched by the C5 witness upload. -/
def c5Prior : File :=
  { id := "f1", stage_id := some "s1", project_id := "1", filename := "spec.pdf"
    file_url := "#", storage_path := none, uploaded_by := "u1"
    uploader_name := "Priya", timestamp := "t0", size := 10, file_type := "pdf"
    category := "requirements", description := none, download_count := 5
    last_downloaded := none, last_downloaded_by := none, is_archived := false
    tags := none }

/-- A file with five recorded downloads, for the C7 counterexample and
witness. -/
def c7File : File :=
  { id := "1", stage_id := some "1", project_id := "1", filename := "a.pdf"
    file_url := "#", storage_path := none, uploaded_by := "1"
    uploader_name := "Arjun", timestamp := "t0", size := 10, file_type := "pdf"
    category := "requirements", description := none, download_count := 5
    last_downloaded := none, last_downloaded_by := none, is_archived := false
    tags := none }

/-- The user performing the download in the C7 witness. -/
def c7User : User := { id := "u2", name := "Rakesh", email := "r@x.io", role := "employee" }

/-- First page of the C10 counterexample project (page numbers 1 and 3 are
not contiguous). -/
def c10a : BrochurePage :=
  { id := "a", project_id := "P", page_number := 1, approval_status := "pending"
    is_locked := false, locked_by := none, locked_by_name := none
    locked_at := none, content := "{}", created_at := "t0", updated_at := "t0" }

/-- Second page of the C10 counterexample project, numbered 3. -/
def c10b : BrochurePage :=
  { id := "b", project_id := "P", page_number := 3, approval_status := "pending"
    is_locked := false, locked_by := none, locked_by_name := none
    locked_at := none, content := "{}", created_at := "t0", updated_at := "t0" }

/-- Page 1 of the contiguously numbered C10 witness project. -/
def c10w1 : BrochurePage := { c10a with id := "w1", page_number := 1 }

/-- Page 2 of the C10 witness project: the one deleted. -/
def c10w2 : BrochurePage := { c10a with id := "w2", page_number := 2 }

/-- Page 3 of the C10 witness project: renumbered to 2. -/
def c10w3 : BrochurePage := { c10a with id := "w3", page_number := 3 }

/-! ### Claim C8: a successful reload replaces the whole collection -/

/-- C8: when a reload of the projects collection succeeds, `loadProjects`
replaces the in-memory collection with the mapped remote rows; the result
is a function of the fetched data only, independent of the prior contents
(and of the mock fallback). -/
theorem C8_loadProjects_replaces_collection (rows : List ProjectRow)
    (prev prev' mock mock' : List Project) :
    loadProjects true (some rows) prev mock = rows.map mapProjectRow ∧
    loadProjects true (some rows) prev mock = loadProjects true (some rows) prev' mock' :=
  ⟨rfl, rfl⟩

/-! ### Claim C6: addCommentTask is optimistic with no rollback -/

/-- C6: `addCommentTask` builds the record from a locally generated id and
timestamp and appends it to the in-memory collection; the appended entry is
in the resulting collection, and the result is the same whatever the
outcome of the remote insert (no rollback on this path). -/
theorem C6_addCommentTask_optimistic (data : CommentTask)
    (freshId now : String) (remoteOk : Bool) (tasks : List CommentTask) :
    addCommentTask data freshId now remoteOk tasks
      = tasks ++ [{ data with id := freshId, timestamp := now }] ∧
    ({ data with id := freshId, timestamp := now } : CommentTask)
      ∈ addCommentTask data freshId now remoteOk tasks ∧
    ∀ remoteOk' : Bool,
      addCommentTask data freshId now remoteOk tasks
        = addCommentTask data freshId now remoteOk' tasks := by
  refine ⟨rfl, ?_, fun _ => rfl⟩
  simp [addCommentTask]

/-! ### Claim C3: lockBrochurePage overwrites the lock unconditionally -/

/-- C3: `lockBrochurePage` sets the lock fields of the matching page to the
calling user without reading the current lock state: the per-index
characterization holds for every prior state; in particular a page already
locked by a different user `v` ends up locked by the caller `u`; and with
no signed-in user nothing changes. -/
theorem C3_lockBrochurePage_unconditional (u v : User) (now pageId : String)
    (pages : List BrochurePage) (p : BrochurePage) (hp : p ∈ pages)
    (hid : p.id = pageId) (hlocked : p.is_locked = true)
    (hholder : p.locked_by = some v.id) (hne : v.id ≠ u.id) :
    (∀ i : Nat, (lockBrochurePage (some u) now pageId pages)[i]? =
        (pages[i]?).map (fun page =>
          if page.id = pageId then
            { page with is_locked := true
                        locked_by := some u.id
                        locked_by_name := some u.name
                        locked_at := some now
                        updated_at := now }
          else page)) ∧
    ({ p with is_locked := true
              locked_by := some u.id
              locked_by_name := some u.name
              locked_at := some now
              updated_at := now } : BrochurePage)
      ∈ lockBrochurePage (some u) now pageId pages ∧
    (∀ pages' : List BrochurePage, lockBrochurePage none now pageId pages' = pages') := by
  refine ⟨fun i => ?_, ?_, fun _ => rfl⟩
  · simp [lockBrochurePage, List.getElem?_map]
  · exact List.mem_map.2 ⟨p, hp, by simp [hid]⟩

/-- Witness for C3 at concrete data: user `u2` locks the page already held
by `u1`. -/
theorem C3_lockBrochurePage_witness :
    ({ c3Page with is_locked := true
                   locked_by := some c3Caller.id
                   locked_by_name := some c3Caller.name
                   locked_at := some "t1"
                   updated_at := "t1" } : BrochurePage)
      ∈ lockBrochurePage (some c3Caller) "t1" "pg1" [c3Page] :=
  (C3_lockBrochurePage_unconditional c3Caller c3Holder "t1" "pg1" [c3Page] c3Page
    (by decide) (by decide) (by decide) (by decide) (by decide)).2.1

/-! ### Claim C4: unlockBrochurePage clears the lock unconditionally -/

/-- C4: `unlockBrochurePage` clears the lock fields of the page with the
given id unconditionally — the source consults neither the lock holder nor
any signed-in user — and leaves every page with a different id unchanged. -/
theorem C4_unlockBrochurePage_clears (now pageId : String)
    (pages : List BrochurePage) :
    (∀ i : Nat, (unlockBrochurePage now pageId pages)[i]? =
        (pages[i]?).map (fun page =>
          if page.id = pageId then
            { page with is_locked := false
                        locked_by := none
                        locked_by_name := none
                        locked_at := none
                        updated_at := now }
          else page)) ∧
    (∀ page ∈ pages, ¬page.id = pageId →
        page ∈ unlockBrochurePage now pageId pages) := by
  refine ⟨fun i => ?_, fun page hpage hne => ?_⟩
  · simp [unlockBrochurePage, List.getElem?_map]
  · exact List.mem_map.2 ⟨page, hpage, by simp [hne]⟩

/-- Witness for C4 at concrete data: the unlock call leaves the page of a
different id untouched. -/
theorem C4_unlockBrochurePage_witness :
    c4Other ∈ unlockBrochurePage "t1" "pg1" [c3Page, c4Other] :=
  (C4_unlockBrochurePage_clears "t1" "pg1" [c3Page, c4Other]).2 c4Other
    (by decide) (by decide)

/-! ### Claim C9: getBrochurePages filters and sorts, purely -/

/-- C9: `getBrochurePages` returns a permutation of exactly the pages of
the given project — a page is in the result iff it is in the collection
and belongs to the project — sorted ascending by page number.  The source
reads `brochurePages` and calls no state setter, so it is modelled (and
proved about) as a pure function. -/
theorem C9_getBrochurePages_spec (projectId : String)
    (pages : List BrochurePage) :
    List.Perm (getBrochurePages projectId pages)
      (pages.filter (fun page => page.project_id = projectId)) ∧
    (∀ q : BrochurePage,
        q ∈ getBrochurePages projectId pages ↔ q ∈ pages ∧ q.project_id = projectId) ∧
    List.Sorted (fun a b => a.page_number ≤ b.page_number)
      (getBrochurePages projectId pages) := by
  refine ⟨List.perm_insertionSort _ _, fun q => ?_, ?_⟩
  · rw [getBrochurePages, (List.perm_insertionSort _ _).mem_iff]
    simp [List.mem_filter]
  · exact List.sorted_insertionSort pageLe _

/-! ### Claim C1: client visibility of projects -/

/-- C1 fails on the code: `loadProjects` issues an unfiltered select and
replaces the collection with every remote row, so after it completes for
the client `u1`, the in-memory collection contains a project whose
`client_id` is a different client. -/
theorem C1_counterexample :
    c1User.role = "client" ∧
    ¬ (∀ p ∈ loadProjects true (some [c1OtherRow]) [] [], p.client_id = c1User.id) := by
  decide

/-- C1 amended: the role-based restriction lives in
`fetchAccessibleProjectIds`, not in `loadProjects`.  For a client user the
accessible-id computation returns exactly the ids of the remote projects
whose `client_id` equals the user's identity, while `loadProjects` itself
replaces the collection with all mapped remote rows independently of the
calling user's role. -/
theorem C1_client_accessible_ids (u : User) (hrole : u.role = "client")
    (remote rows : List ProjectRow) (prev mock : List Project) :
    fetchAccessibleProjectIds true (some u) true remote
      = some ((remote.filter (fun p => p.client_id = u.id)).map (fun p => p.id)) ∧
    (∀ idv : String,
        idv ∈ (remote.filter (fun p => p.client_id = u.id)).map (fun p => p.id)
          ↔ ∃ r ∈ remote, r.id = idv ∧ r.client_id = u.id) ∧
    loadProjects true (some rows) prev mock = rows.map mapProjectRow := by
  refine ⟨?_, fun idv => ?_, rfl⟩
  · simp [fetchAccessibleProjectIds, hrole]
  · simp only [List.mem_map, List.mem_filter, decide_eq_true_eq]
    constructor
    · rintro ⟨r, ⟨hr, hcl⟩, hid⟩
      exact ⟨r, hr, hid, hcl⟩
    · rintro ⟨r, hr, hid, hcl⟩
      exact ⟨r, ⟨hr, hcl⟩, hid⟩

/-- Witness for C1's amended theorem at concrete data: the client sees
exactly their own project id. -/
theorem C1_client_accessible_ids_witness :
    fetchAccessibleProjectIds true (some c1User) true [c1OwnRow, c1OtherRow]
      = some ["p1"] :=
  (C1_client_accessible_ids c1User (by decide) [c1OwnRow, c1OtherRow] [] [] []).1

/-! ### Claim C2: stage auto-creation, exactly once -/

theorem stageBlock_getElem? (fresh : Nat → String) (pid : String) :
    ∀ (names : List String) (i j : Nat),
      (stageBlock fresh pid names i)[j]? =
        (names[j]?).map (fun nm => mkAutoStage (fresh (i + j)) pid nm (i + j)) := by
  intro names
  induction names with
  | nil => intro i j; simp [stageBlock]
  | cons nm rest ih =>
    intro i j
    cases j with
    | zero => simp [stageBlock]
    | succ j' =>
      have h := ih (i + 1) j'
      simp only [stageBlock, List.getElem?_cons_succ]
      rw [h]
      have harith : i + 1 + j' = i + (j' + 1) := by omega
      rw [harith]

theorem stageBlock_length (fresh : Nat → String) (pid : String) :
    ∀ (names : List String) (i : Nat),
      (stageBlock fresh pid names i).length = names.length := by
  intro names
  induction names with
  | nil => intro i; rfl
  | cons nm rest ih => intro i; simp [stageBlock, ih (i + 1)]

theorem stageBlock_project_id (fresh : Nat → String) (pid : String) :
    ∀ (names : List String) (i : Nat), ∀ s ∈ stageBlock fresh pid names i,
      s.project_id = pid := by
  intro names
  induction names with
  | nil => intro i s hs; simp [stageBlock] at hs
  | cons nm rest ih =>
    intro i s hs
    rcases (List.mem_cons).1 hs with h | h
    · subst h; rfl
    · exact ih (i + 1) s h

theorem blocks_filter_none (names : List String) (fresh : String → Nat → String)
    (pid : String) :
    ∀ qs : List Project, (∀ q ∈ qs, ¬q.id = pid) →
      (qs.flatMap (fun q => stageBlock (fresh q.id) q.id names 0)).filter
          (fun s => s.project_id = pid) = [] := by
  intro qs
  induction qs with
  | nil => intro _; rfl
  | cons q rest ih =>
    intro hq
    rw [List.flatMap_cons, List.filter_append]
    have h1 : (stageBlock (fresh q.id) q.id names 0).filter (fun s => s.project_id = pid) = [] := by
      simp only [List.filter_eq_nil_iff]
      intro s hs
      have := stageBlock_project_id (fresh q.id) q.id names 0 s hs
      simp [this, hq q (List.mem_cons_self q rest)]
    rw [h1, ih (fun r hr => hq r (List.mem_cons_of_mem q hr))]
    rfl

theorem blocks_filter_eq (names : List String) (fresh : String → Nat → String)
    (p : Project) :
    ∀ qs : List Project, (qs.map (fun q => q.id)).Nodup → p ∈ qs →
      (qs.flatMap (fun q => stageBlock (fresh q.id) q.id names 0)).filter
          (fun s => s.project_id = p.id)
        = stageBlock (fresh p.id) p.id names 0 := by
  intro qs
  induction qs with
  | nil => intro _ hp; simp at hp
  | cons q rest ih =>
    intro hnd hp
    rw [List.flatMap_cons, List.filter_append]
    have hnd' : (rest.map (fun q => q.id)).Nodup := (List.nodup_cons.1 hnd).2
    have hqrest : ¬q.id ∈ rest.map (fun q => q.id) := (List.nodup_cons.1 hnd).1
    rcases (List.mem_cons).1 hp with h | h
    · subst h
      have h1 : (stageBlock (fresh p.id) p.id names 0).filter (fun s => s.project_id = p.id)
          = stageBlock (fresh p.id) p.id names 0 := by
        rw [List.filter_eq_self]
        intro s hs
        simp [stageBlock_project_id (fresh p.id) p.id names 0 s hs]
      have h2 : (rest.flatMap (fun q => stageBlock (fresh q.id) q.id names 0)).filter
          (fun s => s.project_id = p.id) = [] := by
        refine blocks_filter_none names fresh p.id rest (fun r hr hrid => ?_)
        exact hqrest (hrid ▸ List.mem_map_of_mem (fun q => q.id) hr)
      rw [h1, h2, List.append_nil]
    · have hne : ¬p.id = q.id := by
        intro he
        exact hqrest (he ▸ List.mem_map_of_mem (fun q => q.id) h)
      have h1 : (stageBlock (fresh q.id) q.id names 0).filter (fun s => s.project_id = p.id) = [] := by
        simp only [List.filter_eq_nil_iff]
        intro s hs
        have := stageBlock_project_id (fresh q.id) q.id names 0 s hs
        simp [this]
        exact fun he => hne he.symm
      rw [h1, ih hnd' h, List.nil_append]

theorem flatMap_stageBlock_nil (fresh : String → Nat → String) :
    ∀ qs : List Project, qs.flatMap (fun q => stageBlock (fresh q.id) q.id [] 0) = [] := by
  intro qs
  induction qs with
  | nil => rfl
  | cons q rest ih => rw [List.flatMap_cons, ih]; rfl

/-- C2: running the stage auto-creation step once gives every project that
had no stage exactly one stage per canonical stage name — the `j`-th added
stage carrying the `j`-th name, zero progress, pending approval and order
`j` — adds nothing for a project that already has a stage, and running the
step again (with fresh uuids) changes nothing, so each project gains its
canonical stages exactly once. -/
theorem C2_autoCreateStages_once (stageNames : List String)
    (fresh : String → Nat → String) (projects : List Project)
    (stages : List Stage)
    (hnodup : (projects.map (fun p => p.id)).Nodup) :
    (∀ p ∈ projects,
      (¬p.id ∈ stages.map (fun s => s.project_id) →
        ((autoCreateStages stageNames fresh projects stages).filter
            (fun s => s.project_id = p.id)).length = stageNames.length ∧
        ∀ j : Nat,
          (((autoCreateStages stageNames fresh projects stages).filter
              (fun s => s.project_id = p.id))[j]?).map
              (fun s => (s.name, s.progress_percentage, s.approval_status, s.order))
            = (stageNames[j]?).map (fun nm => (nm, 0, "pending", j))) ∧
      (p.id ∈ stages.map (fun s => s.project_id) →
        (autoCreateStages stageNames fresh projects stages).filter
            (fun s => s.project_id = p.id)
          = stages.filter (fun s => s.project_id = p.id))) ∧
    (∀ fresh' : String → Nat → String,
      autoCreateStages stageNames fresh' projects
          (autoCreateStages stageNames fresh projects stages)
        = autoCreateStages stageNames fresh projects stages) := by
  constructor
  · intro p hp
    constructor
    · intro hnew
      have hstagesnil : stages.filter (fun s => s.project_id = p.id) = [] := by
        simp only [List.filter_eq_nil_iff]
        intro s hs hsid
        simp only [decide_eq_true_eq] at hsid
        exact hnew (hsid ▸ List.mem_map_of_mem (fun s => s.project_id) hs)
      have hpnew : p ∈ projects.filter
          (fun q => !(stages.map (fun s => s.project_id)).contains q.id) := by
        refine List.mem_filter.2 ⟨hp, ?_⟩
        simp [List.contains, List.elem_eq_mem, hnew]
      have hndnew : ((projects.filter
          (fun q => !(stages.map (fun s => s.project_id)).contains q.id)).map
            (fun p => p.id)).Nodup :=
        hnodup.sublist ((List.filter_sublist projects).map (fun p => p.id))
      have hfe : (autoCreateStages stageNames fresh projects stages).filter
          (fun s => s.project_id = p.id) = stageBlock (fresh p.id) p.id stageNames 0 := by
        rw [autoCreateStages, List.filter_append, hstagesnil, List.nil_append]
        exact blocks_filter_eq stageNames fresh p _ hndnew hpnew
      rw [hfe]
      refine ⟨stageBlock_length (fresh p.id) p.id stageNames 0, fun j => ?_⟩
      rw [stageBlock_getElem? (fresh p.id) p.id stageNames 0 j]
      cases stageNames[j]? with
      | none => rfl
      | some nm => simp [mkAutoStage]
    · intro hexisting
      rw [autoCreateStages, List.filter_append]
      have h2 : ((projects.filter
          (fun q => !(stages.map (fun s => s.project_id)).contains q.id)).flatMap
            (fun q => stageBlock (fresh q.id) q.id stageNames 0)).filter
          (fun s => s.project_id = p.id) = [] := by
        refine blocks_filter_none stageNames fresh p.id _ (fun q hq hqid => ?_)
        have := (List.mem_filter.1 hq).2
        simp only [List.contains, List.elem_eq_mem, Bool.not_eq_true', decide_eq_false_iff_not] at this
        exact this (hqid ▸ hexisting)
      rw [h2, List.append_nil]
  · intro fresh'
    cases stageNames with
    | nil =>
      rw [autoCreateStages, flatMap_stageBlock_nil, List.append_nil]
    | cons nm rest =>
      have hall : ∀ p ∈ projects,
          p.id ∈ (autoCreateStages (nm :: rest) fresh projects stages).map
            (fun s => s.project_id) := by
        intro p hp
        rw [autoCreateStages, List.map_append]
        by_cases hex : p.id ∈ stages.map (fun s => s.project_id)
        · exact List.mem_append.2 (Or.inl hex)
        · refine List.mem_append.2 (Or.inr ?_)
          have hpnew : p ∈ projects.filter
              (fun q => !(stages.map (fun s => s.project_id)).contains q.id) := by
            refine List.mem_filter.2 ⟨hp, ?_⟩
            simp [List.contains, List.elem_eq_mem, hex]
          have hmem : mkAutoStage (fresh p.id 0) p.id nm 0 ∈
              (projects.filter
                (fun q => !(stages.map (fun s => s.project_id)).contains q.id)).flatMap
                (fun q => stageBlock (fresh q.id) q.id (nm :: rest) 0) :=
            List.mem_flatMap.2 ⟨p, hpnew, by simp [stageBlock]⟩
          exact List.mem_map_of_mem (fun s => s.project_id) hmem
      have hempty : projects.filter
          (fun q => !((autoCreateStages (nm :: rest) fresh projects stages).map
            (fun s => s.project_id)).contains q.id) = [] := by
        simp only [List.filter_eq_nil_iff]
        intro p hp
        simp [List.contains, List.elem_eq_mem, hall p hp]
      conv_lhs => rw [autoCreateStages]
      rw [hempty]
      simp

/-- Witness for C2 at concrete data: a single stage-less project gains one
stage per canonical name, and a second run changes nothing. -/
theorem C2_autoCreateStages_once_witness :
    ((autoCreateStages c2Names c2Fresh [c2Proj] []).filter
        (fun s => s.project_id = c2Proj.id)).length = c2Names.length ∧
    autoCreateStages c2Names c2Fresh2 [c2Proj]
        (autoCreateStages c2Names c2Fresh [c2Proj] [])
      = autoCreateStages c2Names c2Fresh [c2Proj] [] := by
  have h := C2_autoCreateStages_once c2Names c2Fresh [c2Proj] [] (by decide)
  exact ⟨((h.1 c2Proj (by decide)).1 (by decide)).1, h.2 c2Fresh2⟩

/-! ### Claim C5: uploadFileFromInput is atomic on storage failure -/

theorem uploadFileFromInput_err_eq (stages : List Stage) (user : Option User)
    (stageId fileName : String) (fileSize : Nat)
    (blobUrl uploaderName tempId savedId now storagePath : String)
    (files : List File) (hfresh : ¬tempId ∈ files.map (fun f => f.id)) :
    uploadFileFromInput true stages user stageId fileName fileSize blobUrl
        uploaderName tempId savedId now storagePath false files
      = .error files := by
  have h1 : files.filter (fun f => ¬f.id = tempId) = files := by
    rw [List.filter_eq_self]
    intro f hf
    simp only [decide_eq_true_eq]
    exact fun he => hfresh (he ▸ List.mem_map_of_mem (fun f => f.id) hf)
  have h2 : ([optimisticFile stages user stageId fileName fileSize blobUrl
      uploaderName tempId now].filter (fun f => ¬f.id = tempId)) = [] := by
    simp [optimisticFile]
  show Except.error ((files ++ [optimisticFile stages user stageId fileName
      fileSize blobUrl uploaderName tempId now]).filter (fun f => ¬f.id = tempId))
    = Except.error files
  rw [List.filter_append, h1, h2, List.append_nil]

theorem uploadFileFromInput_ok_eq (stages : List Stage) (user : Option User)
    (stageId fileName : String) (fileSize : Nat)
    (blobUrl uploaderName tempId savedId now storagePath : String)
    (files : List File) (hfresh : ¬tempId ∈ files.map (fun f => f.id)) :
    uploadFileFromInput true stages user stageId fileName fileSize blobUrl
        uploaderName tempId savedId now storagePath true files
      = .ok (files ++
          [{ optimisticFile stages user stageId fileName fileSize blobUrl
              uploaderName tempId now with
              id := savedId, storage_path := some storagePath }]) := by
  have h1 : files.map (fun f =>
      if f.id = tempId then
        { optimisticFile stages user stageId fileName fileSize blobUrl
            uploaderName tempId now with
            id := savedId, storage_path := some storagePath }
      else f) = files := by
    have hcongr := List.map_congr_left (l := files)
      (f := fun f =>
        if f.id = tempId then
          { optimisticFile stages user stageId fileName fileSize blobUrl
              uploaderName tempId now with
              id := savedId, storage_path := some storagePath }
        else f)
      (g := id)
      (fun f hf => by
        have hne : ¬f.id = tempId :=
          fun he => hfresh (he ▸ List.mem_map_of_mem (fun f => f.id) hf)
        simp [hne])
    rw [hcongr, List.map_id]
  show Except.ok ((files ++ [optimisticFile stages user stageId fileName
      fileSize blobUrl uploaderName tempId now]).map (fun f =>
        if f.id = tempId then
          { optimisticFile stages user stageId fileName fileSize blobUrl
              uploaderName tempId now with
              id := savedId, storage_path := some storagePath }
        else f))
    = Except.ok (files ++
        [{ optimisticFile stages user stageId fileName fileSize blobUrl
            uploaderName tempId now with
            id := savedId, storage_path := some storagePath }])
  rw [List.map_append, h1]
  simp [optimisticFile]

/-- C5: with the remote store configured, a failed storage upload makes
`uploadFileFromInput` remove the optimistic entry it appended — the files
collection ends equal to its pre-call value — and re-throw (`Except.error`
carries the rolled-back state); a successful upload replaces the
optimistic entry by a saved entry whose `storage_path` is the uploaded
path.  The hypothesis says the locally generated temporary uuid is fresh. -/
theorem C5_uploadFileFromInput_atomic (stages : List Stage) (user : Option User)
    (stageId fileName : String) (fileSize : Nat)
    (blobUrl uploaderName tempId savedId now storagePath : String)
    (files : List File) (hfresh : ¬tempId ∈ files.map (fun f => f.id)) :
    uploadFileFromInput true stages user stageId fileName fileSize blobUrl
        uploaderName tempId savedId now storagePath false files
      = .error files ∧
    uploadFileFromInput true stages user stageId fileName fileSize blobUrl
        uploaderName tempId savedId now storagePath true files
      = .ok (files ++
          [{ optimisticFile stages user stageId fileName fileSize blobUrl
              uploaderName tempId now with
              id := savedId, storage_path := some storagePath }]) ∧
    ({ optimisticFile stages user stageId fileName fileSize blobUrl
        uploaderName tempId now with
        id := savedId, storage_path := some storagePath } : File).storage_path
      = some storagePath :=
  ⟨uploadFileFromInput_err_eq stages user stageId fileName fileSize blobUrl
      uploaderName tempId savedId now storagePath files hfresh,
   uploadFileFromInput_ok_eq stages user stageId fileName fileSize blobUrl
      uploaderName tempId savedId now storagePath files hfresh,
   rfl⟩

/-- Witness for C5 at concrete data: the failed upload leaves the one-file
collection exactly as it was. -/
theorem C5_uploadFileFromInput_atomic_witness :
    uploadFileFromInput true [] none "s1" "a.png" 7 "blob:x" "Priya" "tmp1"
        "id2" "t1" "1/123-abc.png" false [c5Prior]
      = .error [c5Prior] :=
  (C5_uploadFileFromInput_atomic [] none "s1" "a.png" 7 "blob:x" "Priya" "tmp1"
      "id2" "t1" "1/123-abc.png" [c5Prior] (by decide)).1

/-! ### Claim C7: download counting -/

theorem countsMono_self (files : List File)
    (hnodup : (files.map (fun f => f.id)).Nodup) : countsMono files files := by
  intro f hf f' hf' hid
  have : f' = f := List.inj_on_of_nodup_map hnodup hf' hf hid
  exact this ▸ Nat.le_refl _

theorem countsMono_of_subset (files new : List File)
    (hnodup : (files.map (fun f => f.id)).Nodup)
    (hsub : ∀ f' ∈ new, f' ∈ files) : countsMono files new := by
  intro f hf f' hf' hid
  have : f' = f := List.inj_on_of_nodup_map hnodup (hsub f' hf') hf hid
  exact this ▸ Nat.le_refl _

theorem countsMono_append (files batch : List File)
    (hnodup : (files.map (fun f => f.id)).Nodup)
    (hfresh : ∀ b ∈ batch, ¬b.id ∈ files.map (fun f => f.id)) :
    countsMono files (files ++ batch) := by
  intro f hf f' hf' hid
  rcases List.mem_append.1 hf' with h | h
  · have : f' = f := List.inj_on_of_nodup_map hnodup h hf hid
    exact this ▸ Nat.le_refl _
  · exact absurd (hid ▸ List.mem_map_of_mem (fun f => f.id) hf)
      (hfresh f' h)

theorem countsMono_of_map (files : List File) (g : File → File)
    (hnodup : (files.map (fun f => f.id)).Nodup)
    (hg_id : ∀ f ∈ files, (g f).id = f.id)
    (hg_le : ∀ f ∈ files, f.download_count ≤ (g f).download_count) :
    countsMono files (files.map g) := by
  intro f hf f' hf' hid
  rcases List.mem_map.1 hf' with ⟨b, hb, hgb⟩
  have hbid : b.id = f.id := by rw [← hg_id b hb, hgb, hid]
  have : b = f := List.inj_on_of_nodup_map hnodup hb hf hbid
  subst this
  exact hgb ▸ hg_le b hb

theorem downloadFile_none_user (now histId fileId : String)
    (files : List File) (history : List DownloadHistory) :
    downloadFile none now histId fileId files history = (files, history) := by
  unfold downloadFile
  cases files.find? (fun f => f.id = fileId) <;> rfl

theorem downloadFile_absent (user : Option User) (now histId fileId : String)
    (files : List File) (history : List DownloadHistory)
    (h : files.find? (fun f => f.id = fileId) = none) :
    downloadFile user now histId fileId files history = (files, history) := by
  unfold downloadFile
  rw [h]

theorem downloadFile_found (u : User) (now histId fileId : String)
    (files : List File) (history : List DownloadHistory) (file₀ : File)
    (h : files.find? (fun f => f.id = fileId) = some file₀) :
    downloadFile (some u) now histId fileId files history
      = (files.map (fun f =>
          if f.id = fileId then
            { f with download_count := f.download_count + 1
                     last_downloaded := some now
                     last_downloaded_by := some u.id }
          else f),
         history ++ [{ id := histId, file_id := fileId, downloaded_by := u.id
                       downloader_name := u.name, download_date := now
                       file_name := file₀.filename, file_size := file₀.size }]) := by
  unfold downloadFile
  rw [h]

/-- C7 fails on the code as stated: `updateFileMetadata` — an operation of
the data layer — spreads a caller-supplied partial record over the file,
and that partial record may carry `download_count`, so a single call can
decrease the counter. -/
theorem C7_counterexample :
    ∃ f' ∈ updateFileMetadata "1" { download_count := some 0 } [c7File],
      f'.id = c7File.id ∧ f'.download_count < c7File.download_count := by
  decide

/-- C7 amended: for a present file id and a signed-in user, `downloadFile`
increments the matching file's counter by exactly one, stamps the download,
appends one history entry, and leaves every other file unchanged; it does
nothing when the id is absent or no user is signed in; and every file
operation of the data layer other than `updateFileMetadata` — whose update
object may overwrite `download_count` with any value — leaves each
surviving file's counter no smaller. -/
theorem C7_downloadFile_monotone (files : List File)
    (history : List DownloadHistory) (fileId : String) (u : User)
    (now histId : String)
    (hnodup : (files.map (fun f => f.id)).Nodup)
    (hpresent : fileId ∈ files.map (fun f => f.id)) :
    (∃ file ∈ files, file.id = fileId ∧
      downloadFile (some u) now histId fileId files history
        = (files.map (fun f =>
            if f.id = fileId then
              { f with download_count := f.download_count + 1
                       last_downloaded := some now
                       last_downloaded_by := some u.id }
            else f),
           history ++ [{ id := histId, file_id := fileId, downloaded_by := u.id
                         downloader_name := u.name, download_date := now
                         file_name := file.filename, file_size := file.size }])) ∧
    (∀ i : Nat,
      ((downloadFile (some u) now histId fileId files history).1[i]?).map
          (fun f => f.download_count)
        = (files[i]?).map (fun f =>
            if f.id = fileId then f.download_count + 1 else f.download_count)) ∧
    (∀ i : Nat, (files[i]?).map (fun f => f.id) ≠ some fileId →
      (downloadFile (some u) now histId fileId files history).1[i]? = files[i]?) ∧
    (∀ fid' : String, ¬fid' ∈ files.map (fun f => f.id) →
      downloadFile (some u) now histId fid' files history = (files, history)) ∧
    downloadFile none now histId fileId files history = (files, history) ∧
    countsMono files (downloadFile (some u) now histId fileId files history).1 ∧
    (∀ (fileData : File) (freshId ts : String) (ok : Bool),
      ¬freshId ∈ files.map (fun f => f.id) →
      countsMono files (uploadFile fileData freshId ts ok files)) ∧
    (∀ fid' : String, countsMono files (deleteFile fid' files)) ∧
    (∀ batch : List File, (∀ b ∈ batch, ¬b.id ∈ files.map (fun f => f.id)) →
      countsMono files (saveProjectFiles batch files)) ∧
    (∀ (configured : Bool) (stages : List Stage) (usr : Option User)
        (stageId fileName : String) (fileSize : Nat)
        (blobUrl uploaderName tempId savedId ts storagePath : String)
        (uploadOk : Bool),
      ¬tempId ∈ files.map (fun f => f.id) →
      ¬savedId ∈ files.map (fun f => f.id) →
      countsMono files (exceptState (uploadFileFromInput configured stages usr
        stageId fileName fileSize blobUrl uploaderName tempId savedId ts
        storagePath uploadOk files))) := by
  have hfind : ∃ file₀, files.find? (fun f => f.id = fileId) = some file₀ := by
    cases h : files.find? (fun f => f.id = fileId) with
    | some file₀ => exact ⟨file₀, rfl⟩
    | none =>
      exfalso
      rcases List.mem_map.1 hpresent with ⟨f, hf, hfid⟩
      have := List.find?_eq_none.1 h f hf
      simp [hfid] at this
  rcases hfind with ⟨file₀, hfind⟩
  have hfeq : downloadFile (some u) now histId fileId files history
      = (files.map (fun f =>
          if f.id = fileId then
            { f with download_count := f.download_count + 1
                     last_downloaded := some now
                     last_downloaded_by := some u.id }
          else f),
         history ++ [{ id := histId, file_id := fileId, downloaded_by := u.id
                       downloader_name := u.name, download_date := now
                       file_name := file₀.filename, file_size := file₀.size }]) :=
    downloadFile_found u now histId fileId files history file₀ hfind
  refine ⟨⟨file₀, List.mem_of_find?_eq_some hfind, ?_, hfeq⟩, ?_, ?_, ?_, ?_, ?_, ?_, ?_, ?_, ?_⟩
  · have := List.find?_some hfind
    simpa using this
  · intro i
    rw [hfeq]
    simp only [List.getElem?_map]
    cases files[i]? with
    | none => rfl
    | some f =>
      by_cases hid : f.id = fileId <;> simp [hid]
  · intro i hne
    rw [hfeq]
    simp only [List.getElem?_map]
    cases h : files[i]? with
    | none => rfl
    | some f =>
      have : ¬f.id = fileId := by
        intro he
        exact hne (by simp [h, he])
      simp [this]
  · intro fid' habsent
    refine downloadFile_absent (some u) now histId fid' files history ?_
    cases h : files.find? (fun f => f.id = fid') with
    | none => rfl
    | some f =>
      exfalso
      have hmem := List.mem_of_find?_eq_some h
      have hprop := List.find?_some h
      simp only [decide_eq_true_eq] at hprop
      exact habsent (hprop ▸ List.mem_map_of_mem (fun f => f.id) hmem)
  · exact downloadFile_none_user now histId fileId files history
  · rw [hfeq]
    refine countsMono_of_map files _ hnodup (fun f hf => ?_) (fun f hf => ?_)
    · by_cases hid : f.id = fileId <;> simp [hid]
    · by_cases hid : f.id = fileId <;> simp [hid]
  · intro fileData freshId ts ok hfresh
    refine countsMono_append files _ hnodup ?_
    intro b hb
    have : b = { fileData with id := freshId, timestamp := ts } := by
      simpa [uploadFile] using hb
    subst this
    exact hfresh
  · intro fid'
    exact countsMono_of_subset files _ hnodup
      (fun f' hf' => List.mem_of_mem_filter hf')
  · intro batch hfresh
    exact countsMono_append files batch hnodup hfresh
  · intro configured stages usr stageId fileName fileSize blobUrl uploaderName
      tempId savedId ts storagePath uploadOk htemp hsaved
    cases configured with
    | false =>
      refine countsMono_append files _ hnodup ?_
      intro b hb
      have : b = optimisticFile stages usr stageId fileName fileSize blobUrl
          uploaderName tempId ts := by
        simpa [uploadFileFromInput, exceptState] using hb
      subst this
      simpa [optimisticFile] using htemp
    | true =>
      cases uploadOk with
      | false =>
        rw [uploadFileFromInput_err_eq stages usr stageId fileName fileSize
          blobUrl uploaderName tempId savedId ts storagePath files htemp]
        exact countsMono_self files hnodup
      | true =>
        rw [uploadFileFromInput_ok_eq stages usr stageId fileName fileSize
          blobUrl uploaderName tempId savedId ts storagePath files htemp]
        refine countsMono_append files _ hnodup ?_
        intro b hb
        have : b = { optimisticFile stages usr stageId fileName fileSize blobUrl
            uploaderName tempId ts with
            id := savedId, storage_path := some storagePath } := by
          simpa [exceptState] using hb
        subst this
        simpa using hsaved

theorem C7_downloadFile_monotone_witness :
    ((downloadFile (some c7User) "t1" "h1" "1" [c7File] []).1[0]?).map
        (fun f => f.download_count)
      = (([c7File] : List File)[0]?).map (fun f =>
          if f.id = "1" then f.download_count + 1 else f.download_count) :=
  (C7_downloadFile_monotone [c7File] [] "1" c7User "t1" "h1"
    (by decide) (by decide)).2.1 0

/-! ### Claim C10: deleteBrochurePage renumbering -/

theorem page_set_number_self (p : BrochurePage) (m : Nat)
    (h : p.page_number = m) : ({ p with page_number := m } : BrochurePage) = p := by
  cases p
  subst h
  rfl

theorem renumberLoop_mem_of_fresh (n : Nat) :
    ∀ (rem : List BrochurePage) (i : Nat) (acc : List BrochurePage)
      (p : BrochurePage), p ∈ acc → (∀ q ∈ rem, ¬q.id = p.id) →
      p ∈ renumberLoop n i rem acc := by
  intro rem
  induction rem with
  | nil => intro i acc p hp _; exact hp
  | cons q rest ih =>
    intro i acc p hp hfresh
    show p ∈ renumberLoop n (i + 1) rest
      (if q.page_number ≠ n + i then
        acc.map (fun r => if r.id = q.id then { r with page_number := n + i } else r)
      else acc)
    refine ih (i + 1) _ p ?_ (fun r hr => hfresh r (List.mem_cons_of_mem q hr))
    by_cases hq : q.page_number ≠ n + i
    · rw [if_pos hq]
      have himg : (fun r => if r.id = q.id then { r with page_number := n + i } else r) p = p := by
        show (if p.id = q.id then ({ p with page_number := n + i } : BrochurePage) else p) = p
        rw [if_neg]
        exact fun he => hfresh q (List.mem_cons_self q rest) he.symm
      exact himg ▸ List.mem_map_of_mem _ hp
    · rw [if_neg hq]
      exact hp

theorem renumberLoop_map_id (n : Nat) :
    ∀ (rem : List BrochurePage) (i : Nat) (acc : List BrochurePage),
      (renumberLoop n i rem acc).map (fun p => p.id) = acc.map (fun p => p.id) := by
  intro rem
  induction rem with
  | nil => intro i acc; rfl
  | cons q rest ih =>
    intro i acc
    show (renumberLoop n (i + 1) rest
        (if q.page_number ≠ n + i then
          acc.map (fun r => if r.id = q.id then { r with page_number := n + i } else r)
        else acc)).map (fun p => p.id)
      = acc.map (fun p => p.id)
    rw [ih (i + 1)]
    by_cases hq : q.page_number ≠ n + i
    · rw [if_pos hq, List.map_map]
      refine List.map_congr_left (fun r hr => ?_)
      by_cases hid : r.id = q.id <;> simp [hid]
    · rw [if_neg hq]

theorem renumberLoop_renumbers (n : Nat) :
    ∀ (rem : List BrochurePage) (i : Nat) (acc : List BrochurePage)
      (j : Nat) (q p : BrochurePage),
      (rem.map (fun r => r.id)).Nodup →
      (∀ r ∈ rem, ∀ a ∈ acc, a.id = r.id → a.page_number = r.page_number) →
      p ∈ acc → rem[j]? = some q → q.id = p.id →
      ({ p with page_number := n + i + j } : BrochurePage) ∈ renumberLoop n i rem acc := by
  intro rem
  induction rem with
  | nil => intro i acc j q p _ _ _ hj _; simp at hj
  | cons h0 rest ih =>
    intro i acc j q p hnd hinv hp hj hqp
    have hh0rest : ¬h0.id ∈ rest.map (fun r => r.id) := (List.nodup_cons.1 hnd).1
    have hndrest : (rest.map (fun r => r.id)).Nodup := (List.nodup_cons.1 hnd).2
    show ({ p with page_number := n + i + j } : BrochurePage) ∈ renumberLoop n (i + 1) rest
      (if h0.page_number ≠ n + i then
        acc.map (fun r => if r.id = h0.id then { r with page_number := n + i } else r)
      else acc)
    cases j with
    | zero =>
      have hq0 : h0 = q := by simpa using hj
      subst hq0
      have hpid : p.id = h0.id := hqp.symm
      have hfresh_rest : ∀ r ∈ rest,
          ¬r.id = ({ p with page_number := n + i } : BrochurePage).id := by
        intro r hr he
        have he' : r.id = h0.id := by simpa [hpid] using he
        exact hh0rest (he' ▸ List.mem_map_of_mem (fun r => r.id) hr)
      by_cases hcond : h0.page_number ≠ n + i
      · rw [if_pos hcond]
        have himg : (fun r => if r.id = h0.id then { r with page_number := n + i } else r) p
            = { p with page_number := n + i } := by
          show (if p.id = h0.id then ({ p with page_number := n + i } : BrochurePage) else p)
            = { p with page_number := n + i }
          rw [if_pos hpid]
        exact renumberLoop_mem_of_fresh n rest (i + 1) _ _
          (himg ▸ List.mem_map_of_mem _ hp) hfresh_rest
      · rw [if_neg hcond]
        push_neg at hcond
        have hpn : p.page_number = n + i := by
          rw [hinv h0 (List.mem_cons_self h0 rest) p hp hpid, hcond]
        have heta : ({ p with page_number := n + i } : BrochurePage) = p :=
          page_set_number_self p (n + i) hpn
        refine renumberLoop_mem_of_fresh n rest (i + 1) acc _ (heta ▸ hp) hfresh_rest
    | succ j' =>
      have hjrest : rest[j']? = some q := by simpa using hj
      have hqrest : q ∈ rest := List.mem_iff_getElem?.2 ⟨j', hjrest⟩
      have hqid_ne : ¬q.id = h0.id := by
        intro he
        exact hh0rest (he ▸ List.mem_map_of_mem (fun r => r.id) hqrest)
      have hpid_ne : ¬p.id = h0.id := fun he => hqid_ne (hqp.trans he)
      have harith : n + i + (j' + 1) = n + (i + 1) + j' := by omega
      rw [harith]
      by_cases hcond : h0.page_number ≠ n + i
      · rw [if_pos hcond]
        have himg : (fun r => if r.id = h0.id then { r with page_number := n + i } else r) p
            = p := by
          show (if p.id = h0.id then ({ p with page_number := n + i } : BrochurePage) else p) = p
          rw [if_neg hpid_ne]
        refine ih (i + 1) _ j' q p hndrest ?_ (himg ▸ List.mem_map_of_mem _ hp) hjrest hqp
        intro r hr a ha haid
        rcases List.mem_map.1 ha with ⟨b, hb, hba⟩
        by_cases hbid : b.id = h0.id
        · exfalso
          rw [if_pos hbid] at hba
          have haid0 : a.id = h0.id := by rw [← hba, hbid]
          exact hh0rest (haid0 ▸ haid ▸ List.mem_map_of_mem (fun r => r.id) hr)
        · rw [if_neg hbid] at hba
          subst hba
          exact hinv r (List.mem_cons_of_mem h0 hr) b hb haid
      · rw [if_neg hcond]
        exact ih (i + 1) acc j' q p hndrest
          (fun r hr a ha haid => hinv r (List.mem_cons_of_mem h0 hr) a ha haid)
          hp hjrest hqp

/-- C10 amended: with the remote store configured and all writes
succeeding, and assuming the project's page numbers above `n` are the
contiguous block `n+1, …, n+t` (as the claim's "page numbers stay
contiguous" presupposes), `deleteBrochurePage` removes the page numbered
`n`, renumbers each page of the project numbered `m > n` down to `m - 1`,
leaves the project's lower-numbered pages and all pages of other projects
unchanged, and touches no other entries; in general (without contiguity)
the code gives the `i`-th higher-numbered page, in ascending order, the
number `n + i`, which need not be `m - 1`. -/
theorem C10_deleteBrochurePage_renumbers (projectId : String) (n : Nat)
    (pages : List BrochurePage)
    (hnodup : (pages.map (fun p => p.id)).Nodup)
    (hcontig : (List.insertionSort pageLe (pages.filter
        (fun p => p.project_id = projectId ∧ n < p.page_number))).map
          (fun p => p.page_number)
      = List.range' (n + 1)
          ((pages.filter (fun p => p.project_id = projectId ∧ n < p.page_number)).length)) :
    (∀ p ∈ pages, p.project_id = projectId → p.page_number = n →
      ¬p.id ∈ (deleteBrochurePage true projectId n pages).map (fun p => p.id)) ∧
    (∀ p ∈ pages, p.project_id = projectId → n < p.page_number →
      ({ p with page_number := p.page_number - 1 } : BrochurePage)
        ∈ deleteBrochurePage true projectId n pages) ∧
    (∀ p ∈ pages, ¬p.project_id = projectId →
      p ∈ deleteBrochurePage true projectId n pages) ∧
    (∀ p ∈ pages, p.project_id = projectId → p.page_number < n →
      p ∈ deleteBrochurePage true projectId n pages) ∧
    (deleteBrochurePage true projectId n pages).map (fun p => p.id)
      = (pages.filter
          (fun p => ¬(p.project_id = projectId ∧ p.page_number = n))).map (fun p => p.id) := by
  have hinj : ∀ x ∈ pages, ∀ y ∈ pages, x.id = y.id → x = y :=
    fun x hx y hy => List.inj_on_of_nodup_map hnodup hx hy
  have hdef : deleteBrochurePage true projectId n pages
      = renumberLoop n 0
          (List.insertionSort pageLe (pages.filter
            (fun p => p.project_id = projectId ∧ n < p.page_number)))
          (pages.filter (fun p => ¬(p.project_id = projectId ∧ p.page_number = n))) := rfl
  have hremperm := List.perm_insertionSort pageLe (pages.filter
    (fun p => p.project_id = projectId ∧ n < p.page_number))
  have hremsub : ∀ r ∈ List.insertionSort pageLe (pages.filter
      (fun p => p.project_id = projectId ∧ n < p.page_number)),
      r ∈ pages ∧ r.project_id = projectId ∧ n < r.page_number := by
    intro r hr
    have := hremperm.mem_iff.1 hr
    have h2 := List.mem_filter.1 this
    refine ⟨h2.1, ?_⟩
    simpa using h2.2
  have hafsub : ∀ a ∈ pages.filter
      (fun p => ¬(p.project_id = projectId ∧ p.page_number = n)), a ∈ pages :=
    fun a ha => List.mem_of_mem_filter ha
  have hremnodup : ((List.insertionSort pageLe (pages.filter
      (fun p => p.project_id = projectId ∧ n < p.page_number))).map
        (fun p => p.id)).Nodup := by
    have hfilnodup : ((pages.filter
        (fun p => p.project_id = projectId ∧ n < p.page_number)).map
          (fun p => p.id)).Nodup :=
      hnodup.sublist ((List.filter_sublist pages).map (fun p => p.id))
    exact (List.Perm.nodup_iff (hremperm.map (fun p => p.id))).2 hfilnodup
  have hinv : ∀ r ∈ List.insertionSort pageLe (pages.filter
      (fun p => p.project_id = projectId ∧ n < p.page_number)),
      ∀ a ∈ pages.filter (fun p => ¬(p.project_id = projectId ∧ p.page_number = n)),
      a.id = r.id → a.page_number = r.page_number := by
    intro r hr a ha haid
    have := hinj a (hafsub a ha) r (hremsub r hr).1 haid
    rw [this]
  refine ⟨?_, ?_, ?_, ?_, ?_⟩
  · intro p hp hproj hnum hmem
    rw [hdef, renumberLoop_map_id] at hmem
    rcases List.mem_map.1 hmem with ⟨a, ha, haid⟩
    have hap : a = p := hinj a (hafsub a ha) p hp haid
    subst hap
    have := (List.mem_filter.1 ha).2
    simp [hproj, hnum] at this
  · intro p hp hproj hnum
    have hpfil : p ∈ pages.filter (fun p => p.project_id = projectId ∧ n < p.page_number) :=
      List.mem_filter.2 ⟨hp, by simp [hproj, hnum]⟩
    have hprem : p ∈ List.insertionSort pageLe (pages.filter
        (fun p => p.project_id = projectId ∧ n < p.page_number)) :=
      hremperm.mem_iff.2 hpfil
    rcases List.mem_iff_getElem?.1 hprem with ⟨j, hj⟩
    have hjlt : j < (List.insertionSort pageLe (pages.filter
        (fun p => p.project_id = projectId ∧ n < p.page_number))).length :=
      (List.getElem?_eq_some.1 hj).1
    have hlen : (List.insertionSort pageLe (pages.filter
        (fun p => p.project_id = projectId ∧ n < p.page_number))).length
        = (pages.filter (fun p => p.project_id = projectId ∧ n < p.page_number)).length :=
      hremperm.length_eq
    have hpn : p.page_number = n + 1 + j := by
      have hmapj : ((List.insertionSort pageLe (pages.filter
          (fun p => p.project_id = projectId ∧ n < p.page_number))).map
            (fun p => p.page_number))[j]? = some p.page_number := by
        rw [List.getElem?_map, hj]
        rfl
      rw [hcontig] at hmapj
      have hjlt' : j < (pages.filter
          (fun p => p.project_id = projectId ∧ n < p.page_number)).length := hlen ▸ hjlt
      rw [List.getElem?_eq_getElem (by simpa using hjlt')] at hmapj
      have := Option.some.inj hmapj
      rw [← this]
      simp [List.getElem_range']
    have hpaf : p ∈ pages.filter (fun p => ¬(p.project_id = projectId ∧ p.page_number = n)) :=
      List.mem_filter.2 ⟨hp, by simp [hproj]; omega⟩
    have hkey := renumberLoop_renumbers n _ 0 _ j p p hremnodup hinv hpaf hj rfl
    rw [hdef]
    have hnum_eq : p.page_number - 1 = n + 0 + j := by omega
    rw [hnum_eq]
    exact hkey
  · intro p hp hproj
    rw [hdef]
    refine renumberLoop_mem_of_fresh n _ 0 _ p
      (List.mem_filter.2 ⟨hp, by simp [hproj]⟩) ?_
    intro r hr he
    have : r = p := hinj r (hremsub r hr).1 p hp he
    exact hproj (this ▸ (hremsub r hr).2.1)
  · intro p hp hproj hnum
    rw [hdef]
    refine renumberLoop_mem_of_fresh n _ 0 _ p
      (List.mem_filter.2 ⟨hp, by simp [hproj]; omega⟩) ?_
    intro r hr he
    have hrp : r = p := hinj r (hremsub r hr).1 p hp he
    have hgt := (hremsub r hr).2.2
    rw [hrp] at hgt
    omega
  · rw [hdef, renumberLoop_map_id]

/-- C10 fails on the code as stated: deleting page 1 of a project whose
pages are numbered 1 and 3 renumbers page 3 to 1 (compaction to
`n + i`), not to `m - 1 = 2` as the claim requires. -/
theorem C10_counterexample :
    (∃ p ∈ deleteBrochurePage true "P" 1 [c10a, c10b],
      p.id = "b" ∧ p.page_number = 1) ∧
    ¬ ({ c10b with page_number := c10b.page_number - 1 } : BrochurePage)
        ∈ deleteBrochurePage true "P" 1 [c10a, c10b] := by
  decide

/-- Witness for C10's amended theorem at concrete contiguous data: deleting
page 2 of pages 1, 2, 3 renumbers page 3 to 2. -/
theorem C10_deleteBrochurePage_renumbers_witness :
    ({ c10w3 with page_number := c10w3.page_number - 1 } : BrochurePage)
      ∈ deleteBrochurePage true "P" 2 [c10w1, c10w2, c10w3] :=
  (C10_deleteBrochurePage_renumbers "P" 2 [c10w1, c10w2, c10w3]
      (by decide) (by decide)).2.1 c10w3 (by decide) (by decide) (by decide)

end DataCtx
